import Mathlib

/-!
Verification of the shelob embeddable SSH server framework.

Shallow embedding of the session subsystem (request loop, signal buffering,
exit once-semantics, PTY write normalization), the acceptor admission loop
with its connection registry, the configuration defaulting performed by
ListenAndServe, and the public-key permission wrapper.

Bytes are modelled as natural numbers, Go `int` as `Int`, Go maps as
association lists with the exact lookup/insert behavior of the source, and
external collaborators (the SSH wire library, shlex, fingerprinting,
payload parsers) as parameters of the definitions.
-/

namespace Shelob

/-! ### PTY write normalization (session.Write)

The Go code runs two passes of bytes.Replace over the outgoing buffer:
first every LF (10) becomes CR LF (13 10), then every CR CR LF collapses
back to CR LF.  bytes.Replace with a one byte pattern rewrites each
matching byte; with the three byte pattern it scans left to right and
rewrites non overlapping occurrences. -/

/-- First pass of session.Write: bytes.Replace(p, LF, CR LF, -1). -/
def lfToCrlf : List Nat → List Nat
  | [] => []
  | 10 :: rest => 13 :: 10 :: lfToCrlf rest
  | b :: rest => b :: lfToCrlf rest

/-- Second pass of session.Write: bytes.Replace(p, CR CR LF, CR LF, -1),
scanning left to right over non overlapping occurrences. -/
def collapseCrCrLf : List Nat → List Nat
  | 13 :: 13 :: 10 :: rest => 13 :: 10 :: collapseCrCrLf rest
  | b :: rest => b :: collapseCrCrLf rest
  | [] => []

/-- The full normalization applied by session.Write when a PTY is attached. -/
def normalizePty (p : List Nat) : List Nat :=
  collapseCrCrLf (lfToCrlf p)

/-- The byte count session.Write reports when a PTY is attached: the count
returned by the underlying channel write on the normalized buffer, clamped
to the caller input length (the source clamps with `if n > m`). -/
def ptyWriteCount (p : List Nat) (channelWritten : Nat) : Nat :=
  if channelWritten > p.length then p.length else channelWritten

/-- Canonical single-pass form of the normalization, used to reason about
the two-pass composition. -/
def normCanon : List Nat → List Nat
  | [] => []
  | 10 :: rest => 13 :: 10 :: normCanon rest
  | 13 :: 10 :: rest => 13 :: 10 :: normCanon rest
  | b :: rest => b :: normCanon rest

theorem lfToCrlf_ne_lf_head (r t : List Nat) : lfToCrlf r ≠ 10 :: t := by
  intro h
  cases r with
  | nil => simp [lfToCrlf] at h
  | cons b rs =>
    by_cases hb : b = 10
    · subst hb; simp [lfToCrlf] at h
    · rw [lfToCrlf.eq_3 b rs (fun hh => hb hh)] at h
      injection h with h1 _
      exact hb h1

theorem lfToCrlf_crlf_head (rest r1 : List Nat) (h : lfToCrlf rest = 13 :: 10 :: r1) :
    ∃ r2, rest = 10 :: r2 := by
  cases rest with
  | nil => simp [lfToCrlf] at h
  | cons b rs =>
    by_cases hb : b = 10
    · exact ⟨rs, by rw [hb]⟩
    · rw [lfToCrlf.eq_3 b rs (fun hh => hb hh)] at h
      injection h with _ h2
      exact absurd h2 (lfToCrlf_ne_lf_head rs r1)

theorem normCanon_ne_lf_head (r t : List Nat) : normCanon r ≠ 10 :: t := by
  intro h
  cases r with
  | nil => simp [normCanon] at h
  | cons b rs =>
    by_cases hb : b = 10
    · subst hb; simp [normCanon] at h
    · by_cases h13 : b = 13
      · subst h13
        cases rs with
        | nil =>
          rw [normCanon.eq_4 13 [] (by omega) (by intro r1 _ hr; cases hr)] at h
          injection h with h1 _
          omega
        | cons c rs2 =>
          by_cases hc : c = 10
          · subst hc; simp [normCanon] at h
          · rw [normCanon.eq_4 13 (c :: rs2) (by omega)
              (by intro r1 _ hr; injection hr with hc2 _; exact hc hc2)] at h
            injection h with h1 _
            omega
      · rw [normCanon.eq_4 b rs (fun hh => hb hh) (fun r1 hb13 _ => h13 hb13)] at h
        injection h with h1 _
        exact hb h1

theorem normalizePty_eq_normCanon (p : List Nat) : normalizePty p = normCanon p := by
  unfold normalizePty
  induction p using normCanon.induct with
  | case1 => rfl
  | case2 rest ih =>
    have e1 : lfToCrlf (10 :: rest) = 13 :: 10 :: lfToCrlf rest := by simp [lfToCrlf]
    have e2 : collapseCrCrLf (13 :: 10 :: lfToCrlf rest)
        = 13 :: collapseCrCrLf (10 :: lfToCrlf rest) :=
      collapseCrCrLf.eq_2 13 (10 :: lfToCrlf rest)
        (by intro r1 _ hr; injection hr with ha _; omega)
    have e3 : collapseCrCrLf (10 :: lfToCrlf rest) = 10 :: collapseCrCrLf (lfToCrlf rest) :=
      collapseCrCrLf.eq_2 10 (lfToCrlf rest) (by intro r1 h10 _; omega)
    have e4 : normCanon (10 :: rest) = 13 :: 10 :: normCanon rest := by simp [normCanon]
    rw [e1, e2, e3, ih, e4]
  | case3 rest ih =>
    have e1 : lfToCrlf (13 :: 10 :: rest) = 13 :: 13 :: 10 :: lfToCrlf rest := by
      simp [lfToCrlf]
    have e2 : collapseCrCrLf (13 :: 13 :: 10 :: lfToCrlf rest)
        = 13 :: 10 :: collapseCrCrLf (lfToCrlf rest) := by simp [collapseCrCrLf]
    have e4 : normCanon (13 :: 10 :: rest) = 13 :: 10 :: normCanon rest := by
      simp [normCanon]
    rw [e1, e2, ih, e4]
  | case4 b rest hb10 hb1310 ih =>
    have e1 : lfToCrlf (b :: rest) = b :: lfToCrlf rest := lfToCrlf.eq_3 b rest hb10
    have e2 : collapseCrCrLf (b :: lfToCrlf rest) = b :: collapseCrCrLf (lfToCrlf rest) :=
      collapseCrCrLf.eq_2 b (lfToCrlf rest)
        (by intro r1 hb13 hr
            obtain ⟨r2, hrest⟩ := lfToCrlf_crlf_head rest r1 hr
            exact hb1310 r2 hb13 hrest)
    have e3 : normCanon (b :: rest) = b :: normCanon rest := normCanon.eq_4 b rest hb10 hb1310
    rw [e1, e2, ih, e3]

theorem normCanon_idem (p : List Nat) : normCanon (normCanon p) = normCanon p := by
  induction p using normCanon.induct with
  | case1 => rfl
  | case2 rest ih =>
    have e1 : normCanon (10 :: rest) = 13 :: 10 :: normCanon rest := by simp [normCanon]
    have e2 : normCanon (13 :: 10 :: normCanon rest) = 13 :: 10 :: normCanon (normCanon rest) := by
      simp [normCanon]
    rw [e1, e2, ih]
  | case3 rest ih =>
    have e1 : normCanon (13 :: 10 :: rest) = 13 :: 10 :: normCanon rest := by simp [normCanon]
    have e2 : normCanon (13 :: 10 :: normCanon rest) = 13 :: 10 :: normCanon (normCanon rest) := by
      simp [normCanon]
    rw [e1, e2, ih]
  | case4 b rest hb10 hb1310 ih =>
    have e1 : normCanon (b :: rest) = b :: normCanon rest := normCanon.eq_4 b rest hb10 hb1310
    have e2 : normCanon (b :: normCanon rest) = b :: normCanon (normCanon rest) :=
      normCanon.eq_4 b (normCanon rest) hb10
        (fun r1 _ hr => absurd hr (normCanon_ne_lf_head rest r1))
    rw [e1, e2, ih]

/-- Claim C7: the PTY write normalization (LF to CR LF, then CR CR LF collapsed
to CR LF) is idempotent, and the byte count reported by session.Write with a
PTY attached never exceeds the length of the caller input, whatever count the
underlying channel write reports for the (possibly longer) normalized data. -/
theorem c7_normalization_idem_and_count_clamped :
    (∀ p : List Nat, normalizePty (normalizePty p) = normalizePty p) ∧
    (∀ (p : List Nat) (k : Nat), ptyWriteCount p k ≤ p.length) := by
  constructor
  · intro p
    rw [normalizePty_eq_normCanon p, normalizePty_eq_normCanon (normCanon p)]
    exact normCanon_idem p
  · intro p k
    unfold ptyWriteCount
    split <;> omega

/-! ### RFC 4254 signal names (signal.go, toSignal) -/

/-- The OS signals toSignal can produce (syscall.SIGxxx values). -/
inductive Sig where
  | abrt | alrm | fpe | hup | ill | int | kill | pipe | quit | segv | term | usr1 | usr2
  deriving DecidableEq, Repr

/-- toSignal from signal.go: maps an RFC 4254 shortname to an OS signal, or
returns an error for any other name. -/
def toSignal (sig : String) : Except String Sig :=
  match sig with
  | "ABRT" => .ok .abrt
  | "ALRM" => .ok .alrm
  | "FPE" => .ok .fpe
  | "HUP" => .ok .hup
  | "ILL" => .ok .ill
  | "INT" => .ok .int
  | "KILL" => .ok .kill
  | "PIPE" => .ok .pipe
  | "QUIT" => .ok .quit
  | "SEGV" => .ok .segv
  | "TERM" => .ok .term
  | "USR1" => .ok .usr1
  | "USR2" => .ok .usr2
  | _ => .error "unknown signal"

/-- The thirteen RFC 4254 shortnames accepted by toSignal. -/
def rfc4254Names : List String :=
  ["ABRT", "ALRM", "FPE", "HUP", "ILL", "INT", "KILL", "PIPE", "QUIT", "SEGV",
   "TERM", "USR1", "USR2"]

/-! ### Session request loop (sessionChannelHandler.handleRequests)

One iteration of the `for { select { ... } }` loop is a step over one ready
select alternative: context cancellation, a receive on the signal channel
registration rendezvous, a receive on the request stream (`nil` when the
stream has been closed), or the empty `default` branch.  Requests are
modelled at the parsed-payload level; ssh.Unmarshal, shlex.Split and the
pty payload parsers are external collaborators passed as parameters.
Effects visible outside the loop state (replies, direct sink sends, drain
tasks spawned for buffered signals, user handler spawns) are returned as a
trace. -/

/-- A window size (uint32 cols, rows, width px, height px). -/
structure Window where
  width : Nat
  height : Nat
  widthPx : Nat
  heightPx : Nat
  deriving DecidableEq, Repr

/-- A PTY descriptor as stored on the session. -/
structure Pty where
  term : String
  window : Window
  deriving DecidableEq, Repr

/-- The session struct fields mutated by the request loop (part_000).  The
winch channel contents are modelled as the list of buffered windows. -/
structure SessSt where
  handled : Bool
  agentRequested : Bool
  env : List String
  cmd : List String
  pty : Option Pty
  winchBuf : List Window
  deriving DecidableEq, Repr

/-- Handler configuration plus the external collaborators of the loop:
shlex.Split (composed with its ignored error), parsePtyRequest and
parseWinchRequest from the PTY codec. -/
structure HandlerCfg where
  allowPty : Bool
  allowAgentFwd : Bool
  shlexSplit : String → List String
  parsePtyRequest : List Nat → Option Pty
  parseWinchRequest : List Nat → Option Window

/-- A channel request, at the parsed-payload level. -/
inductive Req where
  | shell (payload : String)
  | exec (payload : String)
  | envReq (key value : String)
  | signal (name : String)
  | ptyReq (payload : List Nat)
  | windowChange (payload : List Nat)
  | agentReq
  | other
  deriving DecidableEq, Repr

/-- One ready select alternative of the request loop.  `req none` models the
receive on a closed request stream, which yields a nil request. -/
inductive LoopEv where
  | ctxDone
  | register (sink : Option Nat)
  | req (r : Option Req)
  | tick
  deriving DecidableEq, Repr

/-- Externally visible effects of loop steps. -/
structure Eff where
  replies : List Bool
  sinkSends : List (Nat × Sig)
  drains : List (Option Nat × List Sig)
  spawns : Nat
  deriving DecidableEq, Repr

/-- The empty effect trace. -/
def Eff.none : Eff := ⟨[], [], [], 0⟩

/-- Concatenation of effect traces. -/
def Eff.append (a b : Eff) : Eff :=
  ⟨a.replies ++ b.replies, a.sinkSends ++ b.sinkSends, a.drains ++ b.drains,
   a.spawns + b.spawns⟩

/-- Whether a loop step returned from handleRequests or continued. -/
inductive StepRes where
  | cont
  | ret
  deriving DecidableEq, Repr

/-- The loop-local state: the session plus the registered signal sink
(`none` when no sink or a nil sink is registered) and the bounded signal
buffer. -/
structure LoopSt where
  sess : SessSt
  signalCh : Option Nat
  signalBuffer : List Sig
  deriving DecidableEq, Repr

/-- session.handle: CAS the handled flag from 0 to 1; on failure reply false
and return; on success reply true, shlex-split the payload into cmd and
spawn the user handler. -/
def sessionHandle (cfg : HandlerCfg) (st : SessSt) (payload : String) : SessSt × Eff :=
  if st.handled then
    (st, ⟨[false], [], [], 0⟩)
  else
    ({ st with handled := true, cmd := cfg.shlexSplit payload }, ⟨[true], [], [], 1⟩)

/-- session.handlePtyReq: refuse when already handled or a PTY is already
present or the payload does not parse; otherwise store the PTY and create
the window channel holding the initial window. -/
def handlePtyReq (cfg : HandlerCfg) (st : SessSt) (payload : List Nat) : SessSt × Eff :=
  if st.handled then
    (st, ⟨[false], [], [], 0⟩)
  else if st.pty.isSome then
    (st, ⟨[false], [], [], 0⟩)
  else
    match cfg.parsePtyRequest payload with
    | Option.none => (st, ⟨[false], [], [], 0⟩)
    | some ptyReq =>
        ({ st with pty := some ptyReq, winchBuf := [ptyReq.window] }, ⟨[true], [], [], 0⟩)

/-- One iteration of the handleRequests loop, as a step on the loop state. -/
def loopStep (cfg : HandlerCfg) (st : LoopSt) (ev : LoopEv) : LoopSt × Eff × StepRes :=
  match ev with
  | .ctxDone => (st, Eff.none, .ret)
  | .register sink =>
      (⟨st.sess, sink, st.signalBuffer⟩,
       if st.signalBuffer.isEmpty then Eff.none
       else ⟨[], [], [(sink, st.signalBuffer)], 0⟩,
       .cont)
  | .req Option.none => (st, Eff.none, .cont)
  | .req (some r) =>
      match r with
      | .shell payload =>
          let (sess, eff) := sessionHandle cfg st.sess payload
          (⟨sess, st.signalCh, st.signalBuffer⟩, eff, .cont)
      | .exec payload =>
          let (sess, eff) := sessionHandle cfg st.sess payload
          (⟨sess, st.signalCh, st.signalBuffer⟩, eff, .cont)
      | .envReq key value =>
          if st.sess.handled then
            (st, ⟨[false], [], [], 0⟩, .cont)
          else
            (⟨{ st.sess with env := st.sess.env ++ [key ++ "=" ++ value] },
              st.signalCh, st.signalBuffer⟩, ⟨[true], [], [], 0⟩, .cont)
      | .signal name =>
          match toSignal name with
          | .error _ => (st, Eff.none, .cont)
          | .ok sig =>
              match st.signalCh with
              | some id => (st, ⟨[], [(id, sig)], [], 0⟩, .cont)
              | Option.none =>
                  if st.signalBuffer.length < 128 then
                    (⟨st.sess, st.signalCh, st.signalBuffer ++ [sig]⟩, Eff.none, .cont)
                  else
                    (st, Eff.none, .cont)
      | .ptyReq payload =>
          if cfg.allowPty then
            let (sess, eff) := handlePtyReq cfg st.sess payload
            (⟨sess, st.signalCh, st.signalBuffer⟩, eff, .cont)
          else
            (st, ⟨[false], [], [], 0⟩, .cont)
      | .windowChange payload =>
          if st.sess.pty.isNone then
            (st, ⟨[false], [], [], 0⟩, .cont)
          else
            match cfg.parseWinchRequest payload with
            | some win =>
                (⟨{ st.sess with
                      pty := st.sess.pty.map fun p => { p with window := win },
                      winchBuf := st.sess.winchBuf ++ [win] },
                  st.signalCh, st.signalBuffer⟩, ⟨[true], [], [], 0⟩, .cont)
            | Option.none => (st, ⟨[false], [], [], 0⟩, .cont)
      | .agentReq =>
          if cfg.allowAgentFwd then
            (⟨{ st.sess with agentRequested := true }, st.signalCh, st.signalBuffer⟩,
             ⟨[true], [], [], 0⟩, .cont)
          else
            (st, ⟨[false], [], [], 0⟩, .cont)
      | .other => (st, ⟨[false], [], [], 0⟩, .cont)
  | .tick => (st, Eff.none, .cont)

/-- Run the request loop over a list of ready select alternatives, stopping
at the first step that returns.  The Bool records whether the loop returned
within the list. -/
def loopRun (cfg : HandlerCfg) (st : LoopSt) : List LoopEv → LoopSt × Eff × Bool
  | [] => (st, Eff.none, false)
  | ev :: rest =>
      let (st1, eff, res) := loopStep cfg st ev
      match res with
      | .ret => (st1, eff, true)
      | .cont =>
          let (st2, eff2, r2) := loopRun cfg st1 rest
          (st2, Eff.append eff eff2, r2)

/-- A fresh session loop state, as built at the top of handleRequests. -/
def loopInit : LoopSt :=
  ⟨⟨false, false, [], [], Option.none, []⟩, Option.none, []⟩

/-- Potential counting how many handler spawns are still possible: one while
the handled flag is 0, none afterwards. -/
def phi (st : LoopSt) : Nat := if st.sess.handled then 0 else 1

theorem loopStep_spawns_phi (cfg : HandlerCfg) (st : LoopSt) (ev : LoopEv) :
    (loopStep cfg st ev).2.1.spawns + phi (loopStep cfg st ev).1 ≤ phi st := by
  cases ev with
  | ctxDone => simp [loopStep, Eff.none]
  | tick => simp [loopStep, Eff.none]
  | register sink =>
      by_cases h : st.signalBuffer.isEmpty <;> simp [loopStep, Eff.none, h, phi]
  | req r =>
      match r with
      | Option.none => simp [loopStep, Eff.none]
      | some r =>
          cases r with
          | shell p =>
              by_cases h : st.sess.handled <;>
                simp [loopStep, sessionHandle, h, phi]
          | exec p =>
              by_cases h : st.sess.handled <;>
                simp [loopStep, sessionHandle, h, phi]
          | envReq k v =>
              by_cases h : st.sess.handled <;> simp [loopStep, h, phi]
          | signal name =>
              rcases htos : toSignal name with e | sig
              · simp [loopStep, htos, Eff.none]
              · rcases hch : st.signalCh with _ | id
                · by_cases hlen : st.signalBuffer.length < 128 <;>
                    simp [loopStep, htos, hch, hlen, Eff.none, phi]
                · simp [loopStep, htos, hch, phi]
          | ptyReq payload =>
              by_cases hp : cfg.allowPty
              · by_cases h : st.sess.handled
                · simp [loopStep, handlePtyReq, hp, h, phi]
                · by_cases hpty : st.sess.pty.isSome
                  · simp [loopStep, handlePtyReq, hp, h, hpty, phi]
                  · rcases hparse : cfg.parsePtyRequest payload with _ | ptyv <;>
                      simp [loopStep, handlePtyReq, hp, h, hpty, hparse, phi]
              · simp [loopStep, hp, phi]
          | windowChange payload =>
              by_cases hpty : st.sess.pty.isNone
              · simp [loopStep, hpty, phi]
              · rcases hparse : cfg.parseWinchRequest payload with _ | win <;>
                  simp [loopStep, hpty, hparse, phi]
          | agentReq =>
              by_cases hf : cfg.allowAgentFwd <;> simp [loopStep, hf, phi]
          | other => simp [loopStep, phi]

theorem loopRun_spawns_phi (cfg : HandlerCfg) :
    ∀ (evs : List LoopEv) (st : LoopSt),
      (loopRun cfg st evs).2.1.spawns + phi (loopRun cfg st evs).1 ≤ phi st := by
  intro evs
  induction evs with
  | nil => intro st; simp [loopRun, Eff.none]
  | cons ev rest ih =>
      intro st
      have hstep := loopStep_spawns_phi cfg st ev
      rcases hs : loopStep cfg st ev with ⟨st1, eff, res⟩
      rw [hs] at hstep
      cases res with
      | ret => simpa [loopRun, hs] using hstep
      | cont =>
          have htail := ih st1
          rcases ht : loopRun cfg st1 rest with ⟨st2, eff2, r2⟩
          rw [ht] at htail
          simp only [loopRun, hs, ht, Eff.append] at *
          omega

/-- Claim C1: across any sequence of shell and exec requests, the user
handler is spawned at most once.  The first such request while the session
is unhandled flips the handled flag from 0 to 1, replies true and spawns
the handler exactly once; any shell or exec request on a handled session
replies false and leaves the whole loop state unchanged; and over an
arbitrary interleaving of loop events starting unhandled, the total number
of handler spawns is at most one. -/
theorem c1_handler_at_most_once :
    (∀ (cfg : HandlerCfg) (st : LoopSt) (p : String), st.sess.handled = false →
      loopStep cfg st (.req (some (.shell p))) =
        (⟨{ st.sess with handled := true, cmd := cfg.shlexSplit p },
          st.signalCh, st.signalBuffer⟩, ⟨[true], [], [], 1⟩, .cont) ∧
      loopStep cfg st (.req (some (.exec p))) =
        (⟨{ st.sess with handled := true, cmd := cfg.shlexSplit p },
          st.signalCh, st.signalBuffer⟩, ⟨[true], [], [], 1⟩, .cont)) ∧
    (∀ (cfg : HandlerCfg) (st : LoopSt) (p : String), st.sess.handled = true →
      loopStep cfg st (.req (some (.shell p))) = (st, ⟨[false], [], [], 0⟩, .cont) ∧
      loopStep cfg st (.req (some (.exec p))) = (st, ⟨[false], [], [], 0⟩, .cont)) ∧
    (∀ (cfg : HandlerCfg) (st : LoopSt) (evs : List LoopEv), st.sess.handled = false →
      (loopRun cfg st evs).2.1.spawns ≤ 1) := by
  refine ⟨?_, ?_, ?_⟩
  · intro cfg st p h
    constructor <;> simp [loopStep, sessionHandle, h]
  · intro cfg st p h
    constructor <;> simp [loopStep, sessionHandle, h]
  · intro cfg st evs h
    have := loopRun_spawns_phi cfg evs st
    simp [phi, h] at this
    omega

/-- Witness for C1 at concrete inputs. -/
theorem c1_handler_at_most_once_witness :
    loopStep ⟨true, false, fun _ => ["ls"], fun _ => Option.none, fun _ => Option.none⟩
        loopInit (.req (some (.shell "ls"))) =
      (⟨⟨true, false, [], ["ls"], Option.none, []⟩, Option.none, []⟩,
       ⟨[true], [], [], 1⟩, .cont) ∧
    (loopRun ⟨true, false, fun _ => ["ls"], fun _ => Option.none, fun _ => Option.none⟩
        loopInit [.req (some (.shell "ls")), .req (some (.exec "ls"))]).2.1.spawns ≤ 1 := by
  constructor
  · exact (c1_handler_at_most_once.1
      ⟨true, false, fun _ => ["ls"], fun _ => Option.none, fun _ => Option.none⟩
      loopInit "ls" rfl).1
  · exact c1_handler_at_most_once.2.2
      ⟨true, false, fun _ => ["ls"], fun _ => Option.none, fun _ => Option.none⟩
      loopInit [.req (some (.shell "ls")), .req (some (.exec "ls"))] rfl

/-- Claim C5 evaluation: when the per-channel request stream is closed, every
receive on it yields a nil request and the loop body hits the `continue`
branch, so the request loop processes any number of such receives without
returning and without changing any state: it does not terminate on stream
close, only on context cancellation.  This contradicts the specified
behavior that the loop returns when the request stream closes. -/
theorem c5_closed_stream_never_returns :
    (∀ (cfg : HandlerCfg) (st : LoopSt) (n : Nat),
      loopRun cfg st (List.replicate n (.req Option.none)) = (st, Eff.none, false)) ∧
    (∀ (cfg : HandlerCfg) (st : LoopSt),
      loopStep cfg st .ctxDone = (st, Eff.none, .ret)) := by
  constructor
  · intro cfg st n
    induction n with
    | zero => simp [loopRun]
    | succ k ih =>
        simp [List.replicate, loopRun, loopStep, ih, Eff.append, Eff.none]
  · intro cfg st
    rfl

theorem toSignal_error_iff (name : String) :
    toSignal name = .error "unknown signal" ↔ name ∉ rfc4254Names := by
  unfold toSignal
  split <;> simp_all [rfc4254Names]

/-- Claim C10: toSignal errors exactly on names outside the thirteen RFC 4254
shortnames, and a `signal` request with such a name is skipped by the request
loop: no reply, no buffering, no sink delivery, and the loop state (session
environment, command, PTY, flags and the signal buffer) is untouched. -/
theorem c10_unknown_signal_skipped :
    (∀ name : String, toSignal name = .error "unknown signal" ↔ name ∉ rfc4254Names) ∧
    (∀ (cfg : HandlerCfg) (st : LoopSt) (name : String), name ∉ rfc4254Names →
      loopStep cfg st (.req (some (.signal name))) = (st, Eff.none, .cont)) := by
  refine ⟨toSignal_error_iff, ?_⟩
  intro cfg st name h
  have herr : toSignal name = .error "unknown signal" := (toSignal_error_iff name).2 h
  simp [loopStep, herr]

/-- Witness for C10 at the concrete name WINCH (a real POSIX signal that is
outside the RFC 4254 set). -/
theorem c10_unknown_signal_skipped_witness :
    loopStep ⟨true, false, fun _ => [], fun _ => Option.none, fun _ => Option.none⟩
        loopInit (.req (some (.signal "WINCH"))) = (loopInit, Eff.none, .cont) :=
  c10_unknown_signal_skipped.2
    ⟨true, false, fun _ => [], fun _ => Option.none, fun _ => Option.none⟩
    loopInit "WINCH" (by decide)

theorem loopRun_signal_buffering (cfg : HandlerCfg) :
    ∀ (names : List String) (sigs : List Sig) (st : LoopSt),
      st.signalCh = Option.none →
      names.map toSignal = sigs.map Except.ok →
      loopRun cfg st (names.map fun nm => LoopEv.req (some (Req.signal nm))) =
        (⟨st.sess, Option.none,
          st.signalBuffer ++ sigs.take (128 - st.signalBuffer.length)⟩,
         Eff.none, false) := by
  intro names
  induction names with
  | nil =>
      intro sigs st hch hmap
      have hs : sigs = [] := by
        cases sigs with
        | nil => rfl
        | cons a b => simp at hmap
      subst hs
      rcases st with ⟨sess, sch, buf⟩
      simp only at hch
      subst hch
      simp [loopRun]
  | cons nm names ih =>
      intro sigs st hch hmap
      cases sigs with
      | nil => simp at hmap
      | cons sig sigs =>
          simp only [List.map] at hmap
          injection hmap with h1 h2
          by_cases hlen : st.signalBuffer.length < 128
          · have hstep : loopStep cfg st (.req (some (.signal nm))) =
                (⟨st.sess, Option.none, st.signalBuffer ++ [sig]⟩, Eff.none, .cont) := by
              simp [loopStep, h1, hch, hlen]
            have ihr := ih sigs ⟨st.sess, Option.none, st.signalBuffer ++ [sig]⟩ rfl h2
            simp only [List.map, loopRun, hstep, ihr, Eff.append, Eff.none]
            have harith : 128 - st.signalBuffer.length = (128 - (st.signalBuffer.length + 1)) + 1 := by
              omega
            simp [harith, List.take_succ_cons]
          · have hstep : loopStep cfg st (.req (some (.signal nm))) = (st, Eff.none, .cont) := by
              simp [loopStep, h1, hch, hlen]
            have ihr := ih sigs st hch h2
            simp only [List.map, loopRun, hstep, ihr, Eff.append, Eff.none]
            have harith : 128 - st.signalBuffer.length = 0 := by omega
            simp [harith]

/-- Claim C6: while no sink is registered a decoded `signal` request is
appended to the pending buffer only while fewer than 128 signals are
buffered and is dropped silently (no reply, no error, no state change)
beyond that; a whole sequence of decoded signals accumulates in FIFO
arrival order, keeping the first 128; registering a sink hands the entire
buffered list, in order, to a drain task separate from the request loop;
and while a sink is registered decoded signals are sent directly to it. -/
theorem c6_signal_buffering_fifo :
    (∀ (cfg : HandlerCfg) (st : LoopSt) (name : String) (sig : Sig),
      toSignal name = .ok sig → st.signalCh = Option.none →
      st.signalBuffer.length < 128 →
      loopStep cfg st (.req (some (.signal name))) =
        (⟨st.sess, Option.none, st.signalBuffer ++ [sig]⟩, Eff.none, .cont)) ∧
    (∀ (cfg : HandlerCfg) (st : LoopSt) (name : String) (sig : Sig),
      toSignal name = .ok sig → st.signalCh = Option.none →
      ¬st.signalBuffer.length < 128 →
      loopStep cfg st (.req (some (.signal name))) = (st, Eff.none, .cont)) ∧
    (∀ (cfg : HandlerCfg) (st : LoopSt) (id : Nat), st.signalBuffer ≠ [] →
      loopStep cfg st (.register (some id)) =
        (⟨st.sess, some id, st.signalBuffer⟩,
         ⟨[], [], [(some id, st.signalBuffer)], 0⟩, .cont)) ∧
    (∀ (cfg : HandlerCfg) (st : LoopSt) (id : Nat) (name : String) (sig : Sig),
      toSignal name = .ok sig → st.signalCh = some id →
      loopStep cfg st (.req (some (.signal name))) =
        (st, ⟨[], [(id, sig)], [], 0⟩, .cont)) ∧
    (∀ (cfg : HandlerCfg) (names : List String) (sigs : List Sig) (st : LoopSt),
      st.signalCh = Option.none →
      names.map toSignal = sigs.map Except.ok →
      loopRun cfg st (names.map fun nm => LoopEv.req (some (Req.signal nm))) =
        (⟨st.sess, Option.none,
          st.signalBuffer ++ sigs.take (128 - st.signalBuffer.length)⟩,
         Eff.none, false)) := by
  refine ⟨?_, ?_, ?_, ?_, ?_⟩
  · intro cfg st name sig hsig hch hlen
    simp [loopStep, hsig, hch, hlen]
  · intro cfg st name sig hsig hch hlen
    simp [loopStep, hsig, hch, hlen]
  · intro cfg st id hbuf
    simp [loopStep, List.isEmpty_iff, hbuf]
  · intro cfg st id name sig hsig hch
    simp [loopStep, hsig, hch]
  · exact fun cfg names sigs st hch hmap => loopRun_signal_buffering cfg names sigs st hch hmap

/-- Witness for C6: two buffered signals are kept in arrival order, drained
in that order on registration, direct delivery happens with a sink, and a
full 128-signal buffer drops the next signal. -/
theorem c6_signal_buffering_fifo_witness :
    loopRun ⟨true, false, fun _ => [], fun _ => Option.none, fun _ => Option.none⟩
        loopInit
        [.req (some (.signal "INT")), .req (some (.signal "TERM"))] =
      (⟨⟨false, false, [], [], Option.none, []⟩, Option.none, [Sig.int, Sig.term]⟩,
       Eff.none, false) ∧
    loopStep ⟨true, false, fun _ => [], fun _ => Option.none, fun _ => Option.none⟩
        ⟨⟨false, false, [], [], Option.none, []⟩, Option.none, [Sig.int, Sig.term]⟩
        (.register (some 5)) =
      (⟨⟨false, false, [], [], Option.none, []⟩, some 5, [Sig.int, Sig.term]⟩,
       ⟨[], [], [(some 5, [Sig.int, Sig.term])], 0⟩, .cont) ∧
    loopStep ⟨true, false, fun _ => [], fun _ => Option.none, fun _ => Option.none⟩
        ⟨⟨false, false, [], [], Option.none, []⟩, some 5, []⟩
        (.req (some (.signal "TERM"))) =
      (⟨⟨false, false, [], [], Option.none, []⟩, some 5, []⟩,
       ⟨[], [(5, Sig.term)], [], 0⟩, .cont) ∧
    loopStep ⟨true, false, fun _ => [], fun _ => Option.none, fun _ => Option.none⟩
        ⟨⟨false, false, [], [], Option.none, []⟩, Option.none, List.replicate 128 Sig.int⟩
        (.req (some (.signal "HUP"))) =
      (⟨⟨false, false, [], [], Option.none, []⟩, Option.none, List.replicate 128 Sig.int⟩,
       Eff.none, .cont) := by
  refine ⟨?_, ?_, ?_, ?_⟩
  · simpa using c6_signal_buffering_fifo.2.2.2.2
      ⟨true, false, fun _ => [], fun _ => Option.none, fun _ => Option.none⟩
      ["INT", "TERM"] [Sig.int, Sig.term] loopInit rfl rfl
  · exact c6_signal_buffering_fifo.2.2.1
      ⟨true, false, fun _ => [], fun _ => Option.none, fun _ => Option.none⟩
      ⟨⟨false, false, [], [], Option.none, []⟩, Option.none, [Sig.int, Sig.term]⟩
      5 (by simp)
  · exact c6_signal_buffering_fifo.2.2.2.1
      ⟨true, false, fun _ => [], fun _ => Option.none, fun _ => Option.none⟩
      ⟨⟨false, false, [], [], Option.none, []⟩, some 5, []⟩
      5 "TERM" Sig.term rfl rfl
  · exact c6_signal_buffering_fifo.2.1
      ⟨true, false, fun _ => [], fun _ => Option.none, fun _ => Option.none⟩
      ⟨⟨false, false, [], [], Option.none, []⟩, Option.none, List.replicate 128 Sig.int⟩
      "HUP" Sig.hup rfl rfl (by simp)

/-! ### session.Exit (part_000)

Exit CAS-guards the exited flag, sends the `exit-status` channel request
(4-byte big endian uint32 of the Go int exit code), then closes the window
channel, the session channel and the parent connection.  The window
channel field is nil unless a pty-req was accepted; closing a nil Go
channel panics, which is modelled explicitly.  A successful transport send
is assumed (SendRequest is an external collaborator). -/

/-- Outcome of a call to session.Exit. -/
inductive ExitOutcome where
  | ok
  | err (msg : String)
  | panic (msg : String)
  deriving DecidableEq, Repr

/-- uint32(code): Go conversion of the int exit code to uint32 (mod 2^32). -/
def uint32OfInt (c : Int) : Nat := (c % (2 ^ 32 : Int)).toNat

/-- ssh.Marshal of struct{ Status uint32 }: four bytes, big endian. -/
def marshalExitStatus (c : Int) : List Nat :=
  [uint32OfInt c / 2 ^ 24 % 256, uint32OfInt c / 2 ^ 16 % 256,
   uint32OfInt c / 2 ^ 8 % 256, uint32OfInt c % 256]

/-- The session state touched by Exit.  winch is `none` when no pty-req was
granted (a nil Go channel), `some false` while the window channel is open,
`some true` once closed. -/
structure ExitSt where
  exited : Bool
  winch : Option Bool
  channelClosed : Bool
  connClosed : Bool
  sentRequests : List (String × List Nat)
  deriving DecidableEq, Repr

/-- session.Exit: CAS the exited flag from 0 to 1; on CAS failure return the
error.  On success send the exit-status request, then close the window
channel (a Go runtime panic when that channel is nil), the channel and the
parent connection. -/
def sessionExit (st : ExitSt) (code : Int) : ExitSt × ExitOutcome :=
  if st.exited then
    (st, .err "exit called more than once")
  else
    let st1 := { st with
      exited := true,
      sentRequests := st.sentRequests ++ [("exit-status", marshalExitStatus code)] }
    match st1.winch with
    | Option.none => (st1, .panic "close of nil channel")
    | some true => (st1, .panic "close of closed channel")
    | some false =>
        ({ st1 with winch := some true, channelClosed := true, connClosed := true }, .ok)

/-- A sequence of Exit calls on one session. -/
def exitRun (st : ExitSt) : List Int → ExitSt × List ExitOutcome
  | [] => (st, [])
  | c :: rest =>
      let (st1, r) := sessionExit st c
      let (st2, rs) := exitRun st1 rest
      (st2, r :: rs)

/-- A fresh session with the given window-channel state. -/
def exitInit (w : Option Bool) : ExitSt := ⟨false, w, false, false, []⟩

/-- Number of exit-status requests in a send trace. -/
def countExitStatus (l : List (String × List Nat)) : Nat :=
  (l.filter fun r => r.1 == "exit-status").length

theorem sessionExit_not_exited (st : ExitSt) (c : Int) (h : st.exited = false) :
    (sessionExit st c).1.exited = true ∧
    (sessionExit st c).1.sentRequests =
      st.sentRequests ++ [("exit-status", marshalExitStatus c)] := by
  unfold sessionExit
  rw [h]
  rcases hw : st.winch with _ | b
  · simp [hw]
  · cases b <;> simp [hw]

theorem exitRun_exited :
    ∀ (codes : List Int) (st : ExitSt), st.exited = true →
      exitRun st codes = (st, codes.map fun _ => ExitOutcome.err "exit called more than once") := by
  intro codes
  induction codes with
  | nil => intro st h; simp [exitRun]
  | cons c rest ih =>
      intro st h
      have hstep : sessionExit st c = (st, .err "exit called more than once") := by
        simp [sessionExit, h]
      simp [exitRun, hstep, ih st h]

theorem exitRun_count :
    ∀ (codes : List Int) (st : ExitSt),
      countExitStatus (exitRun st codes).1.sentRequests ≤
        countExitStatus st.sentRequests + (if st.exited then 0 else 1) := by
  intro codes
  induction codes with
  | nil => intro st; simp only [exitRun]; split <;> omega
  | cons c rest ih =>
      intro st
      by_cases h : st.exited
      · rw [exitRun_exited (c :: rest) st h]
        dsimp only
        split <;> omega
      · have hne : st.exited = false := by simpa using h
        obtain ⟨hx, hs⟩ := sessionExit_not_exited st c hne
        rcases hstep : sessionExit st c with ⟨st1, r⟩
        rw [hstep] at hx hs
        have hcount : countExitStatus st1.sentRequests = countExitStatus st.sentRequests + 1 := by
          rw [hs]
          simp [countExitStatus, List.filter_append]
        have htail := ih st1
        rcases ht : exitRun st1 rest with ⟨st2, rs⟩
        rw [ht] at htail
        dsimp only at htail
        rw [if_pos hx] at htail
        simp only [exitRun, hstep, ht]
        rw [if_neg h]
        omega

/-- Claim C2 evaluation: on a session without a window channel (no pty-req
was ever accepted, s.winch is nil) the first Exit sends the exit-status
request and then panics closing the nil window channel, never closing the
session channel or the parent connection — contradicting the claimed exit
sequence.  On a session whose window channel exists, the claimed
once-semantics does hold: the first call sends exactly one 4-byte
big-endian exit-status and performs all three closes, every later call
errors and changes nothing, and over any whole lifetime at most one
exit-status is ever sent. -/
theorem c2_exit_once_semantics :
    sessionExit (exitInit Option.none) 7 =
      (⟨true, Option.none, false, false, [("exit-status", [0, 0, 0, 7])]⟩,
       .panic "close of nil channel") ∧
    (∀ (c : Int) (codes : List Int),
      exitRun (exitInit (some false)) (c :: codes) =
        (⟨true, some true, true, true, [("exit-status", marshalExitStatus c)]⟩,
         .ok :: codes.map fun _ => .err "exit called more than once")) ∧
    (∀ (w : Option Bool) (codes : List Int),
      countExitStatus (exitRun (exitInit w) codes).1.sentRequests ≤ 1) := by
  refine ⟨by decide, ?_, ?_⟩
  · intro c codes
    have hstep : sessionExit (exitInit (some false)) c =
        (⟨true, some true, true, true, [("exit-status", marshalExitStatus c)]⟩, .ok) := by
      simp [sessionExit, exitInit]
    simp [exitRun, hstep,
      exitRun_exited codes ⟨true, some true, true, true, [("exit-status", marshalExitStatus c)]⟩ rfl]
  · intro w codes
    have := exitRun_count codes (exitInit w)
    simpa [exitInit, countExitStatus] using this

/-! ### Acceptor admission and the connection registry (Server.listen)

The accept loop owns an open-connection count and a per-IP map; admission
on a successful accept checks the global cap, then the per-IP cap, then
increments the wait barrier and both counters and emits the edge-triggered
cap events; a close notification decrements the counters, ignoring absent
per-IP map entries.  Both mutations happen on the single acceptor task,
modelled as one step relation. -/

/-- The caps read by the admission logic (Go ints). -/
structure AcceptCfg where
  maxConnections : Int
  maxClientConnections : Int
  deriving DecidableEq, Repr

/-- Events emitted by admission and close handling, with the remote IP
standing in for the local and remote address pair. -/
inductive AccEvent where
  | connectionClosed (ip : String)
  | connectionOpened (ip : String)
  | maxConnections
  | maxClientConnections (ip : String)
  deriving DecidableEq, Repr

/-- The acceptor-local connection registry plus the wait barrier count. -/
structure ListenSt where
  wg : Int
  openConnections : Int
  clientConnections : List (String × Int)
  deriving DecidableEq, Repr

/-- Go map read m[ip] with the ok flag. -/
def ccLookup : List (String × Int) → String → Option Int
  | [], _ => Option.none
  | (k, v) :: rest, ip => if k = ip then some v else ccLookup rest ip

/-- Go map read m[ip] without the ok flag (zero value when absent). -/
def ccLookupD (m : List (String × Int)) (ip : String) : Int :=
  (ccLookup m ip).getD 0

/-- Go map increment m[ip]++ (stores 1 when the key is absent). -/
def ccBump : List (String × Int) → String → List (String × Int)
  | [], ip => [(ip, 1)]
  | (k, v) :: rest, ip =>
      if k = ip then (k, v + 1) :: rest else (k, v) :: ccBump rest ip

/-- The guarded decrement: `if _, ok := m[ip]; ok { m[ip]-- }`. -/
def ccDec : List (String × Int) → String → List (String × Int)
  | [], _ => []
  | (k, v) :: rest, ip =>
      if k = ip then (k, v - 1) :: rest else (k, v) :: ccDec rest ip

/-- Sum of the per-IP counts in the map. -/
def ccSum (m : List (String × Int)) : Int := (m.map Prod.snd).sum

/-- The `val, ok := m[ip]; ok && val >= MaxClientConnections` check. -/
def ipAtCap (cfg : AcceptCfg) (st : ListenSt) (ip : String) : Bool :=
  match ccLookup st.clientConnections ip with
  | some v => decide (v ≥ cfg.maxClientConnections)
  | Option.none => false

/-- The global cap refusal condition. -/
def globalAtCap (cfg : AcceptCfg) (st : ListenSt) : Bool :=
  decide (cfg.maxConnections > 0) && decide (st.openConnections ≥ cfg.maxConnections)

/-- The per-IP cap refusal condition. -/
def perIpAtCap (cfg : AcceptCfg) (st : ListenSt) (ip : String) : Bool :=
  decide (cfg.maxClientConnections > 0) && ipAtCap cfg st ip

/-- Admission on a successfully accepted connection: the global cap check,
then the per-IP cap check (a refusal closes the connection and emits only
ConnectionClosed), then wait barrier and counter increments, the two
edge-triggered cap events, and ConnectionOpened. -/
def acceptStep (cfg : AcceptCfg) (st : ListenSt) (ip : String) : ListenSt × List AccEvent :=
  if globalAtCap cfg st then
    (st, [.connectionClosed ip])
  else if perIpAtCap cfg st ip then
    (st, [.connectionClosed ip])
  else
    let st1 : ListenSt :=
      ⟨st.wg + 1, st.openConnections + 1, ccBump st.clientConnections ip⟩
    (st1,
      (if st1.openConnections = cfg.maxConnections then [.maxConnections] else []) ++
      (if ccLookupD st1.clientConnections ip = cfg.maxClientConnections
        then [.maxClientConnections ip] else []) ++
      [.connectionOpened ip])

/-- Handling of a close notification: wg.Done, decrement the open count,
decrement the per-IP count when the entry exists, emit ConnectionClosed. -/
def closeStep (st : ListenSt) (ip : String) : ListenSt × List AccEvent :=
  (⟨st.wg - 1, st.openConnections - 1, ccDec st.clientConnections ip⟩,
   [.connectionClosed ip])

/-- The registry at the top of Server.listen. -/
def listenInit : ListenSt := ⟨0, 0, []⟩

/-- Whether acceptStep admits the connection. -/
def admitted (cfg : AcceptCfg) (st : ListenSt) (ip : String) : Bool :=
  !globalAtCap cfg st && !perIpAtCap cfg st ip

/-- States reachable by the acceptor task.  The ghost function counts, per
IP, the admitted connections that have not yet sent their close
notification: a close notification only ever arrives for such a
connection. -/
inductive Reach (cfg : AcceptCfg) : ListenSt → (String → Nat) → Prop
  | init : Reach cfg listenInit (fun _ => 0)
  | accept (st : ListenSt) (fl : String → Nat) (ip : String) :
      Reach cfg st fl →
      Reach cfg (acceptStep cfg st ip).1
        (fun j => if admitted cfg st ip ∧ j = ip then fl j + 1 else fl j)
  | close (st : ListenSt) (fl : String → Nat) (ip : String) :
      Reach cfg st fl → 1 ≤ fl ip →
      Reach cfg (closeStep st ip).1 (fun j => if j = ip then fl j - 1 else fl j)

theorem ccLookup_none_iff (m : List (String × Int)) (ip : String) :
    ccLookup m ip = Option.none ↔ ip ∉ m.map Prod.fst := by
  induction m with
  | nil => simp [ccLookup]
  | cons kv rest ih =>
      rcases kv with ⟨k, v⟩
      by_cases hk : k = ip
      · subst hk; simp [ccLookup]
      · have hk2 : ¬ip = k := fun h => hk h.symm
        simp [ccLookup, hk, hk2, ih]

theorem ccLookup_bump (m : List (String × Int)) (ip j : String) :
    ccLookup (ccBump m ip) j =
      if j = ip then some (ccLookupD m ip + 1) else ccLookup m j := by
  induction m with
  | nil =>
      by_cases hj : j = ip
      · subst hj; simp [ccBump, ccLookup, ccLookupD]
      · have hj2 : ¬ip = j := fun h => hj h.symm
        simp [ccBump, ccLookup, ccLookupD, hj, hj2]
  | cons kv rest ih =>
      rcases kv with ⟨k, v⟩
      by_cases hk : k = ip
      · subst hk
        by_cases hj : j = k
        · subst hj; simp [ccBump, ccLookup, ccLookupD]
        · have hj2 : ¬k = j := fun h => hj h.symm
          simp [ccBump, ccLookup, ccLookupD, hj, hj2]
      · by_cases hj : k = j
        · subst hj
          have hj2 : ¬k = ip := hk
          simp [ccBump, ccLookup, ccLookupD, hk, hj2]
        · simp [ccBump, ccLookup, ccLookupD, hk, hj, ih]

theorem ccBump_lookupD (m : List (String × Int)) (ip j : String) :
    ccLookupD (ccBump m ip) j = ccLookupD m j + (if j = ip then 1 else 0) := by
  unfold ccLookupD
  rw [ccLookup_bump]
  by_cases hj : j = ip
  · subst hj; simp [ccLookupD]
  · simp [hj]

theorem ccBump_keys (m : List (String × Int)) (ip : String) :
    (ccBump m ip).map Prod.fst =
      if ccLookup m ip = Option.none then m.map Prod.fst ++ [ip] else m.map Prod.fst := by
  induction m with
  | nil => simp [ccBump, ccLookup]
  | cons kv rest ih =>
      rcases kv with ⟨k, v⟩
      by_cases hk : k = ip
      · subst hk; simp [ccBump, ccLookup]
      · simp only [ccBump, ccLookup, if_neg hk, List.map]
        rw [ih]
        split <;> simp

theorem ccSum_bump (m : List (String × Int)) (ip : String) :
    ccSum (ccBump m ip) = ccSum m + 1 := by
  induction m with
  | nil => simp [ccBump, ccSum]
  | cons kv rest ih =>
      rcases kv with ⟨k, v⟩
      by_cases hk : k = ip
      · subst hk; simp [ccBump, ccSum]; ring
      · simp only [ccBump, if_neg hk, ccSum, List.map, List.sum_cons] at ih ⊢
        omega

theorem ccDec_keys (m : List (String × Int)) (ip : String) :
    (ccDec m ip).map Prod.fst = m.map Prod.fst := by
  induction m with
  | nil => simp [ccDec]
  | cons kv rest ih =>
      rcases kv with ⟨k, v⟩
      by_cases hk : k = ip
      · subst hk; simp [ccDec]
      · simp [ccDec, hk, ih]

theorem ccDec_none (m : List (String × Int)) (ip : String)
    (h : ccLookup m ip = Option.none) : ccDec m ip = m := by
  induction m with
  | nil => simp [ccDec]
  | cons kv rest ih =>
      rcases kv with ⟨k, v⟩
      by_cases hk : k = ip
      · subst hk; simp [ccLookup] at h
      · simp only [ccLookup, if_neg hk] at h
        simp [ccDec, hk, ih h]

theorem ccLookup_dec (m : List (String × Int)) (ip j : String) :
    ccLookup (ccDec m ip) j =
      if j = ip then (ccLookup m ip).map (· - 1) else ccLookup m j := by
  induction m with
  | nil =>
      by_cases hj : j = ip
      · subst hj; simp [ccDec, ccLookup]
      · simp [ccDec, ccLookup, hj]
  | cons kv rest ih =>
      rcases kv with ⟨k, w⟩
      by_cases hk : k = ip
      · subst hk
        by_cases hj : j = k
        · subst hj; simp [ccDec, ccLookup]
        · have hj2 : ¬k = j := fun h => hj h.symm
          simp [ccDec, ccLookup, hj, hj2]
      · by_cases hj : k = j
        · subst hj
          have hj2 : ¬k = ip := hk
          simp [ccDec, ccLookup, hk, hj2]
        · simp [ccDec, ccLookup, hk, hj, ih]

theorem ccDec_lookupD_some (m : List (String × Int)) (ip : String) (v : Int)
    (h : ccLookup m ip = some v) :
    ∀ j, ccLookupD (ccDec m ip) j = ccLookupD m j - (if j = ip then 1 else 0) := by
  intro j
  unfold ccLookupD
  rw [ccLookup_dec]
  by_cases hj : j = ip
  · subst hj; simp [h]
  · simp [hj]

theorem ccSum_dec_some (m : List (String × Int)) (ip : String) (v : Int)
    (h : ccLookup m ip = some v) : ccSum (ccDec m ip) = ccSum m - 1 := by
  induction m with
  | nil => simp [ccLookup] at h
  | cons kv rest ih =>
      rcases kv with ⟨k, w⟩
      by_cases hk : k = ip
      · subst hk; simp [ccDec, ccSum]; ring
      · simp only [ccLookup, if_neg hk] at h
        simp only [ccDec, if_neg hk, ccSum, List.map, List.sum_cons] at ih ⊢
        have := ih h
        omega

theorem ccLookup_mem_of_nodup (m : List (String × Int))
    (hn : (m.map Prod.fst).Nodup) (kv : String × Int) (hm : kv ∈ m) :
    ccLookup m kv.1 = some kv.2 := by
  induction m with
  | nil => simp at hm
  | cons hd rest ih =>
      rcases hd with ⟨k, v⟩
      simp only [List.map, List.nodup_cons] at hn
      rcases List.mem_cons.1 hm with heq | hmem
      · subst heq; simp [ccLookup]
      · have hk : ¬k = kv.1 := by
          intro hk
          exact hn.1 (hk ▸ (List.mem_map.2 ⟨kv, hmem, rfl⟩))
        simp [ccLookup, hk, ih hn.2 hmem]

theorem acceptStep_refused (cfg : AcceptCfg) (st : ListenSt) (ip : String)
    (h : admitted cfg st ip = false) :
    acceptStep cfg st ip = (st, [AccEvent.connectionClosed ip]) := by
  unfold acceptStep
  by_cases hg : globalAtCap cfg st = true
  · simp [hg]
  · have hg2 : globalAtCap cfg st = false := by simpa using hg
    have hp : perIpAtCap cfg st ip = true := by
      rw [admitted, hg2] at h
      simpa using h
    simp [hg2, hp]

theorem acceptStep_admitted (cfg : AcceptCfg) (st : ListenSt) (ip : String)
    (h : admitted cfg st ip = true) :
    acceptStep cfg st ip =
      (⟨st.wg + 1, st.openConnections + 1, ccBump st.clientConnections ip⟩,
       (if st.openConnections + 1 = cfg.maxConnections
          then [AccEvent.maxConnections] else []) ++
       (if ccLookupD st.clientConnections ip + 1 = cfg.maxClientConnections
          then [AccEvent.maxClientConnections ip] else []) ++
       [AccEvent.connectionOpened ip]) := by
  simp only [admitted, Bool.and_eq_true, Bool.not_eq_true'] at h
  unfold acceptStep
  rw [h.1, h.2]
  simp only [Bool.false_eq_true, if_false]
  rw [ccBump_lookupD]
  simp

theorem reach_inv (cfg : AcceptCfg) :
    ∀ (st : ListenSt) (fl : String → Nat), Reach cfg st fl →
      (st.clientConnections.map Prod.fst).Nodup ∧
      (∀ j, ccLookupD st.clientConnections j = (fl j : Int)) ∧
      st.openConnections = ccSum st.clientConnections := by
  intro st fl h
  induction h with
  | init =>
      refine ⟨by simp [listenInit], ?_, by simp [listenInit, ccSum]⟩
      intro j
      simp [listenInit, ccLookupD, ccLookup]
  | accept st fl ip hr ih =>
      obtain ⟨hA, hB, hC⟩ := ih
      by_cases hadm : admitted cfg st ip = true
      · rw [acceptStep_admitted cfg st ip hadm]
        refine ⟨?_, ?_, ?_⟩
        · rw [ccBump_keys]
          split
          · rename_i hnone
            have hm := (ccLookup_none_iff st.clientConnections ip).1 hnone
            rw [List.nodup_append]
            exact ⟨hA, List.nodup_singleton ip,
              fun a ha hmem => by
                simp only [List.mem_singleton] at hmem
                exact hm (hmem ▸ ha)⟩
          · exact hA
        · intro j
          rw [ccBump_lookupD, hB j]
          by_cases hj : j = ip
          · subst hj; simp [hadm]
          · simp [hj]
        · rw [ccSum_bump]
          simp only [hC]
      · have hadm2 : admitted cfg st ip = false := by simpa using hadm
        rw [acceptStep_refused cfg st ip hadm2]
        refine ⟨hA, ?_, hC⟩
        intro j
        rw [hB j]
        simp [hadm2]
  | close st fl ip hr hfl ih =>
      obtain ⟨hA, hB, hC⟩ := ih
      obtain ⟨v, hv⟩ : ∃ v, ccLookup st.clientConnections ip = some v := by
        rcases hlk : ccLookup st.clientConnections ip with _ | v
        · exfalso
          have := hB ip
          rw [ccLookupD, hlk] at this
          simp only [Option.getD_none] at this
          omega
        · exact ⟨v, rfl⟩
      refine ⟨?_, ?_, ?_⟩
      · simpa [closeStep, ccDec_keys] using hA
      · intro j
        simp only [closeStep]
        rw [ccDec_lookupD_some st.clientConnections ip v hv j, hB j]
        by_cases hj : j = ip
        · subst hj; simp; omega
        · simp [hj]
      · simp only [closeStep]
        rw [ccSum_dec_some st.clientConnections ip v hv]
        simp only [hC]

/-- Claim C3: between acceptor steps the open-connection total equals the sum
of the per-IP counts, the total and every per-IP count are non-negative, and
the only counter mutations are the acceptor-task admission (which increments
both) and close handling (which decrements both, leaving the map untouched
when the per-IP entry is absent). -/
theorem c3_registry_invariant :
    (∀ (cfg : AcceptCfg) (st : ListenSt) (fl : String → Nat), Reach cfg st fl →
      st.openConnections = ccSum st.clientConnections ∧
      0 ≤ st.openConnections ∧
      (∀ j, 0 ≤ ccLookupD st.clientConnections j) ∧
      (∀ kv ∈ st.clientConnections, 0 ≤ kv.2)) ∧
    (∀ (cfg : AcceptCfg) (st : ListenSt) (ip : String), admitted cfg st ip = true →
      (acceptStep cfg st ip).1.openConnections = st.openConnections + 1 ∧
      ccLookupD (acceptStep cfg st ip).1.clientConnections ip =
        ccLookupD st.clientConnections ip + 1) ∧
    (∀ (st : ListenSt) (ip : String),
      (closeStep st ip).1.openConnections = st.openConnections - 1 ∧
      (ccLookup st.clientConnections ip = Option.none →
        (closeStep st ip).1.clientConnections = st.clientConnections) ∧
      (∀ v, ccLookup st.clientConnections ip = some v →
        ccLookupD (closeStep st ip).1.clientConnections ip =
          ccLookupD st.clientConnections ip - 1)) := by
  refine ⟨?_, ?_, ?_⟩
  · intro cfg st fl h
    obtain ⟨hA, hB, hC⟩ := reach_inv cfg st fl h
    have hD : ∀ kv ∈ st.clientConnections, 0 ≤ kv.2 := by
      intro kv hm
      have hl := ccLookup_mem_of_nodup st.clientConnections hA kv hm
      have := hB kv.1
      rw [ccLookupD, hl] at this
      simp only [Option.getD_some] at this
      omega
    refine ⟨hC, ?_, ?_, hD⟩
    · rw [hC]
      refine List.sum_nonneg ?_
      intro x hx
      obtain ⟨kv, hkv, rfl⟩ := List.mem_map.1 hx
      exact hD kv hkv
    · intro j
      rw [hB j]
      omega
  · intro cfg st ip h
    rw [acceptStep_admitted cfg st ip h]
    exact ⟨rfl, by rw [ccBump_lookupD]; simp⟩
  · intro st ip
    refine ⟨rfl, ?_, ?_⟩
    · intro h
      simp only [closeStep]
      exact ccDec_none st.clientConnections ip h
    · intro v hv
      simp only [closeStep]
      rw [ccDec_lookupD_some st.clientConnections ip v hv ip]
      simp

/-- Witness for C3 at a concrete reachable state: one admission then one
close notification for IP a, plus close handling on a registry without an
entry for the IP. -/
theorem c3_registry_invariant_witness :
    ((acceptStep ⟨0, 0⟩ listenInit "a").1.openConnections =
      ccSum (acceptStep ⟨0, 0⟩ listenInit "a").1.clientConnections) ∧
    (closeStep listenInit "b").1.clientConnections = listenInit.clientConnections := by
  constructor
  · exact (c3_registry_invariant.1 ⟨0, 0⟩ (acceptStep ⟨0, 0⟩ listenInit "a").1
      (fun j => if admitted ⟨0, 0⟩ listenInit "a" ∧ j = "a" then (fun _ => 0) j + 1
                else (fun _ => 0) j)
      (Reach.accept listenInit (fun _ => 0) "a" Reach.init)).1
  · exact ((c3_registry_invariant.2.2 listenInit "b").2.1 rfl)

/-- Claim C4: the global cap check precedes the per-IP check (a state at the
global cap refuses whatever the per-IP map holds); a refusal under either
cap leaves the registry unchanged and emits exactly ConnectionClosed — no
counter increment, no ConnectionOpened, no cap event; an admission
increments the wait barrier, the open count and the per-IP count, and emits
MaxConnectionsEvent iff the new open count exactly equals MaxConnections
and MaxClientConnectionsEvent iff the new per-IP count exactly equals
MaxClientConnections, together with ConnectionOpened. -/
theorem c4_admission_events :
    (∀ (cfg : AcceptCfg) (st : ListenSt) (ip : String), globalAtCap cfg st = true →
      acceptStep cfg st ip = (st, [AccEvent.connectionClosed ip])) ∧
    (∀ (cfg : AcceptCfg) (st : ListenSt) (ip : String), perIpAtCap cfg st ip = true →
      acceptStep cfg st ip = (st, [AccEvent.connectionClosed ip])) ∧
    (∀ (cfg : AcceptCfg) (st : ListenSt) (ip : String), admitted cfg st ip = true →
      (acceptStep cfg st ip).1 =
        ⟨st.wg + 1, st.openConnections + 1, ccBump st.clientConnections ip⟩ ∧
      ccLookupD (acceptStep cfg st ip).1.clientConnections ip =
        ccLookupD st.clientConnections ip + 1 ∧
      (AccEvent.maxConnections ∈ (acceptStep cfg st ip).2 ↔
        st.openConnections + 1 = cfg.maxConnections) ∧
      (AccEvent.maxClientConnections ip ∈ (acceptStep cfg st ip).2 ↔
        ccLookupD st.clientConnections ip + 1 = cfg.maxClientConnections) ∧
      AccEvent.connectionOpened ip ∈ (acceptStep cfg st ip).2 ∧
      AccEvent.connectionClosed ip ∉ (acceptStep cfg st ip).2) := by
  refine ⟨?_, ?_, ?_⟩
  · intro cfg st ip h
    simp [acceptStep, h]
  · intro cfg st ip h
    unfold acceptStep
    by_cases hg : globalAtCap cfg st = true
    · simp [hg]
    · have hg2 : globalAtCap cfg st = false := by simpa using hg
      simp [hg2, h]
  · intro cfg st ip h
    rw [acceptStep_admitted cfg st ip h]
    refine ⟨rfl, by rw [ccBump_lookupD]; simp, ?_, ?_, ?_, ?_⟩ <;>
      by_cases hA : st.openConnections + 1 = cfg.maxConnections <;>
      by_cases hB : ccLookupD st.clientConnections ip + 1 = cfg.maxClientConnections <;>
      simp [hA, hB]

/-- Witness for C4: with caps (1,1) the first admission from a fresh
registry fires both cap events, and the resulting full state refuses the
next connection. -/
theorem c4_admission_events_witness :
    AccEvent.maxConnections ∈ (acceptStep ⟨1, 1⟩ listenInit "a").2 ∧
    AccEvent.connectionOpened "a" ∈ (acceptStep ⟨1, 1⟩ listenInit "a").2 ∧
    acceptStep ⟨1, 1⟩ ⟨1, 1, [("a", 1)]⟩ "b" =
      (⟨1, 1, [("a", 1)]⟩, [AccEvent.connectionClosed "b"]) := by
  refine ⟨?_, ?_, ?_⟩
  · exact ((c4_admission_events.2.2 ⟨1, 1⟩ listenInit "a" (by decide)).2.2.1).2 (by decide)
  · exact (c4_admission_events.2.2 ⟨1, 1⟩ listenInit "a" (by decide)).2.2.2.2.1
  · exact c4_admission_events.1 ⟨1, 1⟩ ⟨1, 1, [("a", 1)]⟩ "b" (by decide)

/-! ### Public-key permission wrapper (pubKeyCallbackWrapper, part_001) and
session.PublicKey (part_000)

Go byte strings are modelled as Lean strings; ssh.FingerprintLegacyMD5,
ssh.ParsePublicKey and the user callback are external parameters, and
ConnMetadata is an opaque token. -/

/-- An SSH public key: its type identifier and its wire encoding, the
result of Marshal(). -/
structure PubKey where
  keyType : String
  marshaled : String
  deriving DecidableEq, Repr

/-- ssh.Permissions; either map may be nil. -/
structure Permissions where
  criticalOptions : Option (List (String × String))
  extensions : Option (List (String × String))
  deriving DecidableEq, Repr

/-- Go map assignment m[k] = v. -/
def extSet : List (String × String) → String → String → List (String × String)
  | [], k, v => [(k, v)]
  | (k0, v0) :: rest, k, v =>
      if k0 = k then (k0, v) :: rest else (k0, v0) :: extSet rest k v

/-- Go map read m[k] with the ok flag. -/
def extLookup : List (String × String) → String → Option String
  | [], _ => Option.none
  | (k0, v0) :: rest, k => if k0 = k then some v0 else extLookup rest k

/-- Extension key for the key type. -/
def permKeyType : String := "pub-key-type"

/-- Extension key for the marshaled key bytes. -/
def permKeyData : String := "pub-key-data"

/-- Extension key for the legacy MD5 fingerprint. -/
def permKeyFingerprint : String := "pub-key-fingerprint"

/-- pubKeyCallbackWrapper: wraps the user PublicKeyCallback, propagating its
error with nil permissions, materializing an empty permissions object when
the callback returned nil with no error, ensuring the extensions map is
non-nil, and injecting the key type, the marshaled key bytes and the legacy
MD5 fingerprint. -/
def pubKeyCallbackWrapper (fingerprintMD5 : PubKey → String)
    (cb : Option (Nat → PubKey → Option Permissions × Option String))
    (meta : Nat) (key : PubKey) : Option Permissions × Option String :=
  match cb with
  | Option.none => (Option.none, some "ssh: no auth passed yet")
  | some cb =>
      match cb meta key with
      | (_, some e) => (Option.none, some e)
      | (perm0, Option.none) =>
          let perm : Permissions :=
            match perm0 with
            | Option.none => ⟨Option.none, some []⟩
            | some p =>
                match p.extensions with
                | Option.none => { p with extensions := some [] }
                | some _ => p
          let exts := (perm.extensions).getD []
          let exts := extSet exts permKeyType key.keyType
          let exts := extSet exts permKeyData key.marshaled
          let exts := extSet exts permKeyFingerprint (fingerprintMD5 key)
          (some { perm with extensions := some exts }, Option.none)

/-- session.PublicKey: reconstruct the authenticating key from the
pub-key-data extension bytes, or return nil. -/
def sessionPublicKey (parsePublicKey : String → Option PubKey)
    (perms : Option Permissions) : Option PubKey :=
  match perms with
  | Option.none => Option.none
  | some p =>
      match p.extensions with
      | Option.none => Option.none
      | some exts =>
          match extLookup exts permKeyData with
          | some keyData =>
              match parsePublicKey keyData with
              | some key => some key
              | Option.none => Option.none
          | Option.none => Option.none

theorem extLookup_set (m : List (String × String)) (k v j : String) :
    extLookup (extSet m k v) j = if j = k then some v else extLookup m j := by
  induction m with
  | nil =>
      by_cases hj : j = k
      · subst hj; simp [extSet, extLookup]
      · have hj2 : ¬k = j := fun h => hj h.symm
        simp [extSet, extLookup, hj, hj2]
  | cons kv rest ih =>
      rcases kv with ⟨k0, v0⟩
      by_cases hk : k0 = k
      · subst hk
        by_cases hj : j = k0
        · subst hj; simp [extSet, extLookup]
        · have hj2 : ¬k0 = j := fun h => hj h.symm
          simp [extSet, extLookup, hj, hj2]
      · by_cases hj : k0 = j
        · subst hj
          have hj2 : ¬k0 = k := hk
          simp [extSet, extLookup, hk, hj2]
        · simp [extSet, extLookup, hk, hj, ih]

theorem wrapper_success_shape (fp : PubKey → String)
    (cb : Nat → PubKey → Option Permissions × Option String) (meta : Nat) (key : PubKey)
    (p0 : Option Permissions) (hcb : cb meta key = (p0, Option.none)) :
    ∃ copt exts,
      pubKeyCallbackWrapper fp (some cb) meta key = (some ⟨copt, some exts⟩, Option.none) ∧
      extLookup exts permKeyType = some key.keyType ∧
      extLookup exts permKeyData = some key.marshaled ∧
      extLookup exts permKeyFingerprint = some (fp key) := by
  have hinject : ∀ e0 : List (String × String),
      extLookup (extSet (extSet (extSet e0 permKeyType key.keyType)
          permKeyData key.marshaled) permKeyFingerprint (fp key)) permKeyType =
        some key.keyType ∧
      extLookup (extSet (extSet (extSet e0 permKeyType key.keyType)
          permKeyData key.marshaled) permKeyFingerprint (fp key)) permKeyData =
        some key.marshaled ∧
      extLookup (extSet (extSet (extSet e0 permKeyType key.keyType)
          permKeyData key.marshaled) permKeyFingerprint (fp key)) permKeyFingerprint =
        some (fp key) := by
    intro e0
    refine ⟨?_, ?_, ?_⟩
    · rw [extLookup_set, if_neg (by decide), extLookup_set, if_neg (by decide),
        extLookup_set, if_pos rfl]
    · rw [extLookup_set, if_neg (by decide), extLookup_set, if_pos rfl]
    · rw [extLookup_set, if_pos rfl]
  rcases p0 with _ | p
  · refine ⟨Option.none, _, ?_, hinject []⟩
    simp [pubKeyCallbackWrapper, hcb]
  · rcases hx : p.extensions with _ | e
    · refine ⟨p.criticalOptions, _, ?_, hinject []⟩
      simp [pubKeyCallbackWrapper, hcb, hx]
    · refine ⟨p.criticalOptions, _, ?_, hinject e⟩
      simp [pubKeyCallbackWrapper, hcb, hx]

/-- Claim C8: the wrapped PublicKeyCallback propagates a callback error
unchanged with nil permissions; on success it returns non-nil permissions
with a non-nil extensions map holding the key type, the marshaled key bytes
and the legacy MD5 fingerprint, materializing an empty permissions object
when the callback returned nil permissions with no error; and consequently
session.PublicKey() reconstructs from the pub-key-data extension a key that
marshals bit-equal to the authenticating key. -/
theorem c8_pubkey_extensions :
    (∀ (fp : PubKey → String) (cb : Nat → PubKey → Option Permissions × Option String)
        (meta : Nat) (key : PubKey) (p0 : Option Permissions) (e : String),
      cb meta key = (p0, some e) →
      pubKeyCallbackWrapper fp (some cb) meta key = (Option.none, some e)) ∧
    (∀ (fp : PubKey → String) (cb : Nat → PubKey → Option Permissions × Option String)
        (meta : Nat) (key : PubKey),
      cb meta key = (Option.none, Option.none) →
      pubKeyCallbackWrapper fp (some cb) meta key =
        (some ⟨Option.none, some [(permKeyType, key.keyType), (permKeyData, key.marshaled),
          (permKeyFingerprint, fp key)]⟩, Option.none)) ∧
    (∀ (fp : PubKey → String) (cb : Nat → PubKey → Option Permissions × Option String)
        (meta : Nat) (key : PubKey) (p0 : Option Permissions),
      cb meta key = (p0, Option.none) →
      ∃ copt exts,
        pubKeyCallbackWrapper fp (some cb) meta key = (some ⟨copt, some exts⟩, Option.none) ∧
        extLookup exts permKeyType = some key.keyType ∧
        extLookup exts permKeyData = some key.marshaled ∧
        extLookup exts permKeyFingerprint = some (fp key)) ∧
    (∀ (fp : PubKey → String) (cb : Nat → PubKey → Option Permissions × Option String)
        (meta : Nat) (key : PubKey) (p0 : Option Permissions)
        (parse : String → Option PubKey) (key2 : PubKey),
      cb meta key = (p0, Option.none) →
      parse key.marshaled = some key2 → key2.marshaled = key.marshaled →
      sessionPublicKey parse (pubKeyCallbackWrapper fp (some cb) meta key).1 = some key2 ∧
      key2.marshaled = key.marshaled) := by
  refine ⟨?_, ?_, ?_, ?_⟩
  · intro fp cb meta key p0 e hcb
    simp [pubKeyCallbackWrapper, hcb]
  · intro fp cb meta key hcb
    simp [pubKeyCallbackWrapper, hcb, extSet, permKeyType, permKeyData, permKeyFingerprint]
  · intro fp cb meta key p0 hcb
    exact wrapper_success_shape fp cb meta key p0 hcb
  · intro fp cb meta key p0 parse key2 hcb hparse hmar
    obtain ⟨copt, exts, hw, _, hdata, _⟩ := wrapper_success_shape fp cb meta key p0 hcb
    rw [hw]
    refine ⟨?_, hmar⟩
    simp [sessionPublicKey, hdata, hparse]

/-- Witness for C8: a callback returning nil permissions with no error; the
wrapper injects exactly the three extensions and PublicKey() reconstructs a
bit-equal key through a parse function that round-trips. -/
theorem c8_pubkey_extensions_witness :
    pubKeyCallbackWrapper (fun _ => "md5-fp")
        (some fun _ _ => (Option.none, Option.none)) 0 ⟨"ssh-rsa", "KEYBYTES"⟩ =
      (some ⟨Option.none, some [(permKeyType, "ssh-rsa"), (permKeyData, "KEYBYTES"),
        (permKeyFingerprint, "md5-fp")]⟩, Option.none) ∧
    sessionPublicKey (fun s => some ⟨"ssh-rsa", s⟩)
        (pubKeyCallbackWrapper (fun _ => "md5-fp")
          (some fun _ _ => (Option.none, Option.none)) 0 ⟨"ssh-rsa", "KEYBYTES"⟩).1 =
      some ⟨"ssh-rsa", "KEYBYTES"⟩ := by
  constructor
  · exact c8_pubkey_extensions.2.1 (fun _ => "md5-fp")
      (fun _ _ => (Option.none, Option.none)) 0 ⟨"ssh-rsa", "KEYBYTES"⟩ rfl
  · exact (c8_pubkey_extensions.2.2.2 (fun _ => "md5-fp")
      (fun _ _ => (Option.none, Option.none)) 0 ⟨"ssh-rsa", "KEYBYTES"⟩ Option.none
      (fun s => some ⟨"ssh-rsa", s⟩) ⟨"ssh-rsa", "KEYBYTES"⟩ rfl rfl rfl).1

/-! ### Configuration mutability (New and ListenAndServe, part_001)

New applies its defaults while constructing the server.  ListenAndServe,
called after construction, still writes into the shared Config: an empty
bind address is defaulted to port 22 by assignment to s.config.Addr.  The
handler maps, callbacks and key material are modelled as opaque
identifiers, durations as integer nanosecond counts. -/

/-- The configuration fields read by the server (nil-able Go fields are
Options). -/
structure Config where
  addr : String
  maxConnections : Int
  maxClientConnections : Int
  maxDeadline : Int
  maxConnectionDuration : Int
  requestHandlers : List (String × Nat)
  channelHandlers : List (String × Nat)
  connectionCallback : Option Nat
  eventHandler : Option Nat
  privateKey : Option Nat
  publicKeyCallback : Option Nat
  signalChan : Option Nat
  deriving DecidableEq, Repr

/-- The Config mutation performed at the top of ListenAndServe:
`if s.config.Addr == "" { s.config.Addr = ":22" }`. -/
def listenAndServeAddrDefault (c : Config) : Config :=
  if c.addr = "" then { c with addr := ":22" } else c

/-- Counterexample to claim C9 as stated: a Config constructed with an empty
bind address is mutated by ListenAndServe, which writes ":22" into its Addr
field after construction has returned. -/
theorem c9_counterexample_addr_mutated :
    listenAndServeAddrDefault
        ⟨"", 0, 0, 1000000000, 0, [], [], Option.none, Option.none, Option.none,
          Option.none, Option.none⟩ ≠
      ⟨"", 0, 0, 1000000000, 0, [], [], Option.none, Option.none, Option.none,
        Option.none, Option.none⟩ := by
  decide

/-- Claim C9 amended: after construction, the only Config field any framework
operation mutates is Addr — ListenAndServe writes the default ":22" into an
empty Addr; every other field (caps, deadlines, handler maps, callbacks, key
material, signal channel) is preserved, and a Config with a non-empty Addr
is not modified at all. -/
theorem c9_config_immutable_except_addr_default (c : Config) :
    (listenAndServeAddrDefault c).maxConnections = c.maxConnections ∧
    (listenAndServeAddrDefault c).maxClientConnections = c.maxClientConnections ∧
    (listenAndServeAddrDefault c).maxDeadline = c.maxDeadline ∧
    (listenAndServeAddrDefault c).maxConnectionDuration = c.maxConnectionDuration ∧
    (listenAndServeAddrDefault c).requestHandlers = c.requestHandlers ∧
    (listenAndServeAddrDefault c).channelHandlers = c.channelHandlers ∧
    (listenAndServeAddrDefault c).connectionCallback = c.connectionCallback ∧
    (listenAndServeAddrDefault c).eventHandler = c.eventHandler ∧
    (listenAndServeAddrDefault c).privateKey = c.privateKey ∧
    (listenAndServeAddrDefault c).publicKeyCallback = c.publicKeyCallback ∧
    (listenAndServeAddrDefault c).signalChan = c.signalChan ∧
    (c.addr ≠ "" → listenAndServeAddrDefault c = c) ∧
    (c.addr = "" → (listenAndServeAddrDefault c).addr = ":22") := by
  unfold listenAndServeAddrDefault
  by_cases h : c.addr = "" <;> simp [h]

/-- Witness for C9 (amended) at two concrete configurations. -/
theorem c9_config_immutable_except_addr_default_witness :
    listenAndServeAddrDefault
        ⟨":10022", 5, 2, 1000000000, 0, [], [], Option.none, Option.none, Option.none,
          Option.none, Option.none⟩ =
      ⟨":10022", 5, 2, 1000000000, 0, [], [], Option.none, Option.none, Option.none,
        Option.none, Option.none⟩ ∧
    (listenAndServeAddrDefault
        ⟨"", 5, 2, 1000000000, 0, [], [], Option.none, Option.none, Option.none,
          Option.none, Option.none⟩).addr = ":22" := by
  constructor
  · exact (c9_config_immutable_except_addr_default
      ⟨":10022", 5, 2, 1000000000, 0, [], [], Option.none, Option.none, Option.none,
        Option.none, Option.none⟩).2.2.2.2.2.2.2.2.2.2.2.1 (by decide)
  · exact (c9_config_immutable_except_addr_default
      ⟨"", 5, 2, 1000000000, 0, [], [], Option.none, Option.none, Option.none,
        Option.none, Option.none⟩).2.2.2.2.2.2.2.2.2.2.2.2 rfl

end Shelob
